import Mathlib

/-!
Verification of the DataverseV0 dynamic-ETL extractor
(`app/dynamic_etl/etl/extract/extractor.py`).

The Python module is shallowly embedded below.  JSON-like documents become
the inductive type `Etl.Node` (maps, sequences, scalars); Python `dict`s
used as flat rows become insertion-ordered association lists with
last-write-wins update (`Etl.dictInsert`), matching Python `dict`
semantics (an overwrite keeps the key's original position, a fresh key is
appended).  `pandas.DataFrame` is embedded as a column-name list plus a
row-major cell matrix; the pandas missing-value marker (NaN, used to fill
cells for keys absent in a record) is the scalar `SVal.nan`.  File-system
access, JSON parsing and the format-reader registry of
`extract_data` are external collaborators and are supplied through an
explicit environment (`Etl.Env`); everything else is translated
line-by-line from the source.
-/

namespace Etl

/-- Scalar values: strings, numbers, booleans, JSON null (Python `None`),
and the pandas missing-value marker NaN. -/
inductive SVal where
  | s (v : String)
  | i (v : Int)
  | b (v : Bool)
  | null
  | nan
  deriving DecidableEq

/-- Keys of Python dicts as they occur in this pipeline: strings, or the
Python value `None` (a JSON document represented in memory can carry a
`None` key, and `extract_json_safely` copies root keys verbatim). -/
inductive JKey where
  | str (s : String)
  | none
  deriving DecidableEq

/-- JSON-like document tree: maps (ordered key/value pairs, keys unique),
sequences, and scalars. -/
inductive Node where
  | map (fields : List (JKey × Node))
  | seq (items : List Node)
  | scalar (v : SVal)

/-- Python `isinstance(value, list)`. -/
def Node.isSeq : Node → Bool
  | .seq _ => true
  | _ => false

/-- A flat row: a Python dict in insertion order.  Values are `Node`s
because `extract_json_safely` stores raw (possibly composite) values of
non-list root fields into rows. -/
abbrev Row := List (JKey × Node)

/-- Python dict assignment `d[k] = v`: overwrite in place if the key is
present (keeping its position), otherwise append. -/
def dictInsert (r : Row) (k : JKey) (v : Node) : Row :=
  if r.any (fun p => decide (p.1 = k)) then
    r.map (fun p => if p.1 = k then (k, v) else p)
  else r ++ [(k, v)]

/-- Python dict lookup `d[k]` as an `Option`. -/
def rowLookup (k : JKey) (r : Row) : Option Node :=
  (r.find? (fun p => decide (p.1 = k))).map (fun p => p.2)

/-- Python `str.strip()`: remove whitespace from both ends. -/
def stripWs (s : String) : String :=
  (((s.toList.dropWhile Char.isWhitespace).reverse.dropWhile Char.isWhitespace).reverse).asString

/-- Python `str.strip("_")`: remove underscores from both ends. -/
def stripUnderscore (s : String) : String :=
  (((s.toList.dropWhile (· = '_')).reverse.dropWhile (· = '_')).reverse).asString

/-- Python `str(key)` for the key values that occur here. -/
def pyStr : JKey → String
  | .str s => s
  | .none => "None"

/-- The key normalizer nested in `flatten_json`:
`if key is None or str(key).strip() == "": return "unknown"; return str(key)`. -/
def normalize_key : JKey → String
  | .none => "unknown"
  | .str s => if stripWs s = "" then "unknown" else s

/-- Null-to-empty-string substitution at scalar leaves:
`value if value is not None else ""`. -/
def nullSub (sv : SVal) : SVal := if sv = .null then .s "" else sv

/-! ### `deep_flatten_value` / `deep_flatten_row` (source lines 12-35)

The row-level flattener: an empty or `None` prefix discards the value;
map/sequence children recurse with `f"{prefix}_{k}".strip("_")`; scalar
leaves are stored at the raw prefix, with `None` replaced by `""`.
(The source checks the empty prefix before dispatching on the value's
type; the guard is replicated in each arm below, which is the same
function since the guard ignores the value.) -/

mutual
def deep_flatten_value : JKey → Node → Row → Row
  | .none, _, out => out
  | .str p, .map l, out => if p = "" then out else dfvFields p l out
  | .str p, .seq l, out => if p = "" then out else dfvItems p 0 l out
  | .str p, .scalar sv, out =>
      if p = "" then out else dictInsert out (.str p) (.scalar (nullSub sv))

def dfvFields : String → List (JKey × Node) → Row → Row
  | _, [], out => out
  | p, (k, v) :: rest, out =>
      dfvFields p rest (deep_flatten_value (.str (stripUnderscore (p ++ "_" ++ pyStr k))) v out)

def dfvItems : String → Nat → List Node → Row → Row
  | _, _, [], out => out
  | p, i, v :: rest, out =>
      dfvItems p (i + 1) rest (deep_flatten_value (.str (stripUnderscore (p ++ "_" ++ toString i))) v out)
end

/-- Source lines 31-35: flatten one row by running `deep_flatten_value`
on each of its entries, with the entry's key as the initial prefix. -/
def deep_flatten_row (row : Row) : Row :=
  row.foldl (fun flat p => deep_flatten_value p.1 p.2 flat) []

/-! ### `flatten_json` (source lines 41-70)

The whole-document flattener: the nested `recurse` normalizes its prefix
on entry (so the empty initial prefix becomes `"unknown"`), composes
`f"{key_prefix}_{nk}"` for map children and `f"{key_prefix}_{i}"` for
sequence elements, and writes scalars at `normalize_key(key_prefix)`
with `None` replaced by `""`. -/

mutual
def fj_recurse : Node → String → Row → Row
  | .map l, pfx, out => fjFields l (normalize_key (.str pfx)) out
  | .seq l, pfx, out => fjItems l (normalize_key (.str pfx)) 0 out
  | .scalar sv, pfx, out =>
      dictInsert out
        (.str (normalize_key (.str (normalize_key (.str pfx)))))
        (.scalar (nullSub sv))

def fjFields : List (JKey × Node) → String → Row → Row
  | [], _, out => out
  | (k, v) :: rest, kp, out => fjFields rest kp (fj_recurse v (kp ++ "_" ++ normalize_key k) out)

def fjItems : List Node → String → Nat → Row → Row
  | [], _, _, out => out
  | v :: rest, kp, i, out => fjItems rest kp (i + 1) (fj_recurse v (kp ++ "_" ++ toString i) out)
end

/-- Source lines 41-70: `flatten_json(data, prefix="")`. -/
def flatten_json (data : Node) (pfx : String := "") : Row :=
  fj_recurse data pfx []

/-! ### DataFrame embedding -/

/-- Embedding of a `pandas.DataFrame`: ordered column names plus a
row-major matrix of cells (each row aligned with `cols`). -/
structure DataFrame where
  cols : List JKey
  rows : List (List Node)
  deriving Inhabited

/-- Column order of `pd.DataFrame(list_of_dicts)`: keys in order of first
appearance across the records. -/
def recordCols (rs : List Row) : List JKey :=
  rs.foldl (fun acc r => r.foldl (fun acc2 p => if acc2.any (fun q => decide (q = p.1)) then acc2 else acc2 ++ [p.1]) acc) []

/-- Construction `pd.DataFrame(list_of_dicts)`: cells for keys a record
lacks are filled with the missing-value marker NaN. -/
def dfOfRecords (rs : List Row) : DataFrame :=
  { cols := recordCols rs
    rows := rs.map (fun r => (recordCols rs).map (fun c => (rowLookup c r).getD (.scalar .nan))) }

/-- Conversion `df.to_dict(orient="records")`. -/
def toRecords (df : DataFrame) : List Row :=
  df.rows.map (fun r => df.cols.zip r)

/-! ### `extract_json_safely` (source lines 73-106) -/

/-- Python `len(x[1])` for a list-valued candidate (only ever applied to
sequences). -/
def candLen (p : JKey × Node) : Nat :=
  match p.2 with
  | .seq l => l.length
  | _ => 0

/-- Python `max(candidates, key=lambda x: len(x[1]))` on a non-empty
list: fold keeping the current best, replacing only on a strictly
greater key, so the first maximal element wins ties. -/
def pyMaxCand (c : JKey × Node) (rest : List (JKey × Node)) : JKey × Node :=
  rest.foldl (fun best p => if candLen p > candLen best then p else best) c

/-- Source lines 90-98: the row built for one element of the chosen
sequence — flatten the element, then write every non-list root field
into the row under its original key. -/
def broadcastRow (fields : List (JKey × Node)) (item : Node) : Row :=
  fields.foldl (fun flat p => if p.2.isSeq then flat else dictInsert flat p.1 p.2)
    (flatten_json item)

/-- Source lines 73-106: `extract_json_safely` applied to the parsed
document (the `open`/`json.load` part lives in the environment of
`extract_data`). -/
def extract_json_safely (data : Node) : DataFrame :=
  match data with
  | .seq items => dfOfRecords (items.map (fun item => flatten_json item))
  | .map fields =>
      match fields.filter (fun p => p.2.isSeq) with
      | [] => dfOfRecords [flatten_json (.map fields)]
      | c :: rest =>
          let chosen := pyMaxCand c rest
          let items := match chosen.2 with | .seq l => l | _ => []
          dfOfRecords (items.map (fun item => broadcastRow fields item))
  | .scalar v => dfOfRecords [[(JKey.str "value", Node.scalar v)]]

/-! ### `normalize_list_columns` (source lines 112-125) -/

/-- Python `len(x) if isinstance(x, list) else 1`. -/
def cellLen : Node → Nat
  | .seq l => l.length
  | _ => 1

/-- The cells of column `j` (as a pandas Series; a position a row does
not reach reads as NaN). -/
def colCells (df : DataFrame) (j : Nat) : List Node :=
  df.rows.map (fun r => r.getD j (.scalar .nan))

/-- Python `series.apply(lambda x: len(x) if isinstance(x, list) else 1).max()`
(on the non-empty series reached by the code, the `0` seed is inert). -/
def pyColMaxLen (cells : List Node) : Nat :=
  (cells.map cellLen).foldl Nat.max 0

/-- Rewriting of one cell: a list is right-padded with `None` to
`maxLen`; anything else becomes `[x]` padded likewise (Python's negative
list-multiplication yields `[]`, as does truncated `Nat` subtraction). -/
def normCell (maxLen : Nat) (x : Node) : Node :=
  match x with
  | .seq l => .seq (l ++ List.replicate (maxLen - l.length) (.scalar .null))
  | x => .seq ([x] ++ List.replicate (maxLen - 1) (.scalar .null))

/-- Map over a list with the position index. -/
def mapWithIndex (f : Nat → Node → Node) : Nat → List Node → List Node
  | _, [] => []
  | i, x :: xs => f i x :: mapWithIndex f (i + 1) xs

/-- Source lines 112-125: for each column that contains at least one
list cell, rewrite every cell of that column to a list of length
`pyColMaxLen`; columns without list cells are untouched.  The Python
loop mutates one column at a time; since a column's statistics depend
only on that column's own cells, the per-cell formulation below is the
same function. -/
def normalize_list_columns (df : DataFrame) : DataFrame :=
  { cols := df.cols
    rows := df.rows.map (fun r =>
      mapWithIndex (fun j x =>
        if (colCells df j).any Node.isSeq then
          normCell (pyColMaxLen (colCells df j)) x
        else x) 0 r) }

/-! ### `extract_data` (source lines 135-173) -/

/-- Final unconditional pipeline tail of `extract_data`: rectangularize,
convert to records, deep-flatten every row, rebuild the DataFrame. -/
def finalize (df : DataFrame) : DataFrame :=
  dfOfRecords ((toRecords (normalize_list_columns df)).map deep_flatten_row)

/-- Whole JSON pipeline of `extract_data` after parsing: lines 152 and
157-167. -/
def json_pipeline (data : Node) : DataFrame :=
  finalize (extract_json_safely data)

/-- External world of one `extract_data` call: whether the path exists,
the detected extension (`detect_file_type`), the outcome of
`json.load` when the JSON branch is taken, the reader registry
(`READERS`, an external collaborator) with each reader's outcome, and an
injection point for any other runtime fault raised inside the `try`
block during rectangularization/flattening (the `Unexpected` class of
the spec's error taxonomy). -/
structure Env where
  pathExists : Bool
  ext : String
  jsonDoc : Except String Node
  readers : String → Option (Except String DataFrame)
  unexpected : Option String

/-- Outcome of the reading stage inside the `try` block. -/
inductive ReadStep where
  | fail (msg : String)
  | earlyEmpty
  | ok (df : DataFrame)

/-- Lines 150-156: JSON goes through `extract_json_safely` (whose
`open`/`json.load` can raise); otherwise a registered reader runs (and
can raise), and a missing reader returns an empty DataFrame at once,
skipping the rest of the pipeline. -/
def readStep (env : Env) : ReadStep :=
  if env.ext = "json" then
    match env.jsonDoc with
    | .error e => .fail e
    | .ok data => .ok (extract_json_safely data)
  else
    match env.readers env.ext with
    | Option.none => .earlyEmpty
    | some (.error e) => .fail e
    | some (.ok df) => .ok df

/-- Body of the `try` block of `extract_data` (lines 138-170): missing
file raises, then the read stage, then the unconditional
rectangularize + deep-flatten tail (where an `unexpected` fault can
still raise). -/
def extract_body (env : Env) : Except String DataFrame :=
  if env.pathExists then
    match readStep env with
    | .fail e => .error e
    | .earlyEmpty => .ok (DataFrame.mk [] [])
    | .ok df =>
        match env.unexpected with
        | some e => .error e
        | Option.none => .ok (finalize df)
  else .error "File not found"

/-- Source lines 135-173: `extract_data` — the `try`/`except` boundary;
every raised fault is caught and converted to an empty DataFrame. -/
def extract_data (env : Env) : DataFrame :=
  match extract_body env with
  | .ok df => df
  | .error _ => DataFrame.mk [] []

/-! ### Predicates and concrete documents used by the claims below -/

/-- Key-safety predicate on one row entry: the key is a non-empty
string. -/
def nonEmptyStrKeyB : JKey × Node → Bool := fun p =>
  match p.1 with
  | .str s => !(s == "")
  | .none => false

/-- Value predicate on one row entry: the value is not the null
scalar. -/
def nonNullValB : JKey × Node → Bool := fun p =>
  match p.2 with
  | .scalar .null => false
  | _ => true

/-- Test, decidably, that a row's keys are pairwise distinct (a Python
dict always satisfies this). -/
def keysNodupB : Row → Bool
  | [] => true
  | p :: r => !(r.any (fun q => decide (q.1 = p.1))) && keysNodupB r

/-- Test that a value is a scalar other than null. -/
def scalarNonNullB : Node → Bool
  | .scalar .null => false
  | .scalar _ => true
  | _ => false

/-- Test that a row is already flat and stable under re-flattening: keys
are pairwise-distinct non-empty strings, values are non-null scalars. -/
def flatRowOkB (row : Row) : Bool :=
  row.all (fun p => nonEmptyStrKeyB p && scalarNonNullB p.2) && keysNodupB row

/-- Alignment check: every row of the DataFrame has exactly one cell
per column (true of every DataFrame this pipeline builds). -/
def dfAlignedB (df : DataFrame) : Bool :=
  df.rows.all (fun r => r.length == df.cols.length)

/-- Spec-side definition, written from the spec's words for comparison
with the code's `pyColMaxLen` (claim C3): the maximum length among the
Sequence-valued cells only, with non-Sequence and absent cells
contributing nothing. -/
def specSeqOnlyMaxLen (cells : List Node) : Nat :=
  (cells.filterMap (fun x =>
    match x with
    | .seq l => some l.length
    | _ => Option.none)).foldl Nat.max 0

/-- One-column DataFrame whose column holds an empty-list cell and a
non-list cell (counterexample data for C3). -/
def c3_df : DataFrame := ⟨[.str "c"], [[.seq []], [.scalar (.s "a")]]⟩

/-- Two-column DataFrame: column `c` holds a two-element list and a
scalar, column `d` holds only scalars (witness data for C3 and C9). -/
def c3_wdf : DataFrame :=
  ⟨[.str "c", .str "d"],
   [[.seq [.scalar (.s "p"), .scalar (.s "q")], .scalar (.i 1)],
    [.scalar (.s "a"), .scalar (.i 2)]]⟩

/-- First element of the `items` sequence of the end-to-end example
document of the spec. -/
def c1_item1 : Node :=
  .map [(.str "sku", .scalar (.s "A")),
        (.str "tags", .seq [.scalar (.s "x"), .scalar (.s "y")])]

/-- Second element of the `items` sequence of the end-to-end example
document of the spec. -/
def c1_item2 : Node :=
  .map [(.str "sku", .scalar (.s "B")), (.str "tags", .seq [.scalar (.s "z")])]

/-- End-to-end example document
`{"id": 1, "items": [{"sku": "A", "tags": ["x","y"]}, {"sku": "B", "tags": ["z"]}]}`. -/
def c1_data : Node :=
  .map [(.str "id", .scalar (.i 1)), (.str "items", .seq [c1_item1, c1_item2])]

/-- Environment in which `extract_data` runs the JSON branch on the
example document with no external failure. -/
def c1_env : Env :=
  { pathExists := true
    ext := "json"
    jsonDoc := .ok c1_data
    readers := fun _ => Option.none
    unexpected := Option.none }

/-- Root fields with two sequence-valued entries of lengths 3 and 5 and
one scalar entry (witness data for C4). -/
def c4_fields : List (JKey × Node) :=
  [(.str "a", .seq [.scalar (.i 1), .scalar (.i 2), .scalar (.i 3)]),
   (.str "b", .seq [.scalar (.i 1), .scalar (.i 2), .scalar (.i 3),
                    .scalar (.i 4), .scalar (.i 5)]),
   (.str "id", .scalar (.i 9))]

/-- Root fields for the C10 witness: the scalar field's key
`unknown_x` collides with the key the flattener derives for the
element's `x` field. -/
def c10_fields : List (JKey × Node) :=
  [(.str "unknown_x", .scalar (.i 7)),
   (.str "items", .seq [.map [(.str "x", .scalar (.i 1))]])]

/-- Environment of a call on a path that does not exist (witness data
for C5). -/
def c5_env : Env :=
  { pathExists := false
    ext := "json"
    jsonDoc := .error "unreached"
    readers := fun _ => Option.none
    unexpected := Option.none }

/-! ### Basic dictionary lemmas -/

theorem rowLookup_nil (k : JKey) : rowLookup k [] = Option.none := rfl

theorem rowLookup_cons (k : JKey) (p : JKey × Node) (r : Row) :
    rowLookup k (p :: r) = if p.1 = k then some p.2 else rowLookup k r := by
  by_cases h : p.1 = k <;> simp [rowLookup, List.find?_cons, h]

theorem rowLookup_append_left (k : JKey) (r₁ r₂ : Row)
    (h : r₁.any (fun p => decide (p.1 = k)) = false) :
    rowLookup k (r₁ ++ r₂) = rowLookup k r₂ := by
  induction r₁ with
  | nil => simp
  | cons p r ih =>
      simp only [List.any_cons, Bool.or_eq_false_iff] at h
      rw [List.cons_append, rowLookup_cons]
      simp only [decide_eq_false_iff_not] at h
      simp [h.1, ih h.2]

theorem dictInsert_of_not_mem (r : Row) (k : JKey) (v : Node)
    (h : r.any (fun p => decide (p.1 = k)) = false) :
    dictInsert r k v = r ++ [(k, v)] := by
  simp [dictInsert, h]

theorem rowLookup_dictInsert_self (r : Row) (k : JKey) (v : Node) :
    rowLookup k (dictInsert r k v) = some v := by
  unfold dictInsert
  split
  next hany =>
    induction r with
    | nil => simp at hany
    | cons p rest ih =>
        by_cases h : p.1 = k
        · simp [rowLookup_cons, h]
        · simp only [List.any_cons, decide_eq_true_eq, h, false_or] at hany
          simp only [List.map_cons, if_neg h]
          rw [rowLookup_cons]
          simp [h, ih hany]
  next hany =>
    rw [rowLookup_append_left k r [(k, v)] (Bool.eq_false_iff.mpr hany)]
    simp [rowLookup_cons]

theorem rowLookup_append_single_ne (r : Row) (k k' : JKey) (v : Node) (hne : k' ≠ k) :
    rowLookup k' (r ++ [(k, v)]) = rowLookup k' r := by
  induction r with
  | nil =>
      simp only [List.nil_append]
      rw [rowLookup_cons]
      have : ¬ ((k, v).1 = k') := fun hc => hne (hc ▸ rfl)
      simp [this, rowLookup_nil]
  | cons p rest ih =>
      rw [List.cons_append, rowLookup_cons, rowLookup_cons, ih]

theorem map_subst_of_no_key (rest : List (JKey × Node)) (k : JKey) (v : Node)
    (h : rest.any (fun q => decide (q.1 = k)) = false) :
    rest.map (fun q => if q.1 = k then (k, v) else q) = rest := by
  induction rest with
  | nil => rfl
  | cons q t ih =>
      simp only [List.any_cons, Bool.or_eq_false_iff, decide_eq_false_iff_not] at h
      rw [List.map_cons, if_neg h.1, ih (by simpa using h.2)]

theorem rowLookup_map_subst (r : Row) (k k' : JKey) (v : Node) (hne : k' ≠ k) :
    rowLookup k' (r.map (fun p => if p.1 = k then (k, v) else p)) = rowLookup k' r := by
  induction r with
  | nil => simp
  | cons p rest ih =>
      by_cases h : p.1 = k
      · simp only [List.map_cons, if_pos h]
        rw [rowLookup_cons, rowLookup_cons]
        have h1 : ¬ ((k, v).1 = k') := fun hc => hne (hc ▸ rfl)
        have hpk : ¬ (p.1 = k') := fun hc => hne (by rw [← hc, h])
        rw [if_neg h1, if_neg hpk, ih]
      · simp only [List.map_cons, if_neg h]
        rw [rowLookup_cons, rowLookup_cons, ih]

theorem rowLookup_dictInsert_ne (r : Row) (k k' : JKey) (v : Node) (hne : k' ≠ k) :
    rowLookup k' (dictInsert r k v) = rowLookup k' r := by
  unfold dictInsert
  split
  next hany => exact rowLookup_map_subst r k k' v hne
  next hany => exact rowLookup_append_single_ne r k k' v hne

theorem dictInsert_all {P : JKey × Node → Bool} (r : Row) (k : JKey) (v : Node)
    (hkv : P (k, v) = true) (hr : r.all P = true) : (dictInsert r k v).all P = true := by
  unfold dictInsert
  split
  · rw [List.all_eq_true] at hr ⊢
    intro p hp
    obtain ⟨q, hq, rfl⟩ := List.mem_map.1 hp
    by_cases h : q.1 = k
    · simp [h, hkv]
    · simp [h, hr q hq]
  · rw [List.all_append]
    simp [hr, hkv]

/-! ### Properties of the key normalizer -/

theorem normalize_key_ne_empty (k : JKey) : normalize_key k ≠ "" := by
  cases k with
  | none => simp [normalize_key]
  | str s =>
      rw [normalize_key]
      split
      · simp
      next h =>
        intro hc
        exact h (by rw [hc]; rfl)

theorem normalize_key_idem (s : String) :
    normalize_key (.str (normalize_key (.str s))) = normalize_key (.str s) := by
  by_cases h : stripWs s = "" <;> simp [normalize_key, h]

/-! ### Invariant preservation for `flatten_json`: every pair the walk
inserts has key `.str (normalize_key _)` and a null-substituted scalar
value. -/

mutual
theorem fj_recurse_all (P : JKey × Node → Bool)
    (hP : ∀ (s : String) (sv : SVal), P (.str (normalize_key (.str s)), .scalar (nullSub sv)) = true)
    (v : Node) (pfx : String) (out : Row) (h : out.all P = true) :
    (fj_recurse v pfx out).all P = true :=
  match v with
  | .map l => fjFields_all P hP l (normalize_key (.str pfx)) out h
  | .seq l => fjItems_all P hP l (normalize_key (.str pfx)) 0 out h
  | .scalar sv => dictInsert_all out _ _ (hP (normalize_key (.str pfx)) sv) h

theorem fjFields_all (P : JKey × Node → Bool)
    (hP : ∀ (s : String) (sv : SVal), P (.str (normalize_key (.str s)), .scalar (nullSub sv)) = true)
    (l : List (JKey × Node)) (kp : String) (out : Row) (h : out.all P = true) :
    (fjFields l kp out).all P = true :=
  match l with
  | [] => h
  | (k, v) :: rest =>
      fjFields_all P hP rest kp _ (fj_recurse_all P hP v (kp ++ "_" ++ normalize_key k) out h)

theorem fjItems_all (P : JKey × Node → Bool)
    (hP : ∀ (s : String) (sv : SVal), P (.str (normalize_key (.str s)), .scalar (nullSub sv)) = true)
    (l : List Node) (kp : String) (i : Nat) (out : Row) (h : out.all P = true) :
    (fjItems l kp i out).all P = true :=
  match l with
  | [] => h
  | v :: rest =>
      fjItems_all P hP rest kp (i + 1) _ (fj_recurse_all P hP v (kp ++ "_" ++ toString i) out h)
end

/-! ### Invariant preservation for `deep_flatten_value`: every pair it
inserts has a non-empty string key and a null-substituted scalar value. -/

mutual
theorem dfv_all (P : JKey × Node → Bool)
    (hP : ∀ (p : String), p ≠ "" → ∀ (sv : SVal), P (.str p, .scalar (nullSub sv)) = true)
    (pk : JKey) (v : Node) (out : Row) (h : out.all P = true) :
    (deep_flatten_value pk v out).all P = true := by
  cases pk with
  | none => rw [deep_flatten_value]; exact h
  | str p =>
      cases v with
      | map l =>
          rw [deep_flatten_value]
          split
          · exact h
          · exact dfvFields_all P hP p l out h
      | seq l =>
          rw [deep_flatten_value]
          split
          · exact h
          · exact dfvItems_all P hP p 0 l out h
      | scalar sv =>
          rw [deep_flatten_value]
          split
          · exact h
          next hp => exact dictInsert_all out _ _ (hP p hp sv) h

theorem dfvFields_all (P : JKey × Node → Bool)
    (hP : ∀ (p : String), p ≠ "" → ∀ (sv : SVal), P (.str p, .scalar (nullSub sv)) = true)
    (p : String) (l : List (JKey × Node)) (out : Row) (h : out.all P = true) :
    (dfvFields p l out).all P = true :=
  match l with
  | [] => h
  | (k, v) :: rest =>
      dfvFields_all P hP p rest _
        (dfv_all P hP (.str (stripUnderscore (p ++ "_" ++ pyStr k))) v out h)

theorem dfvItems_all (P : JKey × Node → Bool)
    (hP : ∀ (p : String), p ≠ "" → ∀ (sv : SVal), P (.str p, .scalar (nullSub sv)) = true)
    (p : String) (i : Nat) (l : List Node) (out : Row) (h : out.all P = true) :
    (dfvItems p i l out).all P = true :=
  match l with
  | [] => h
  | v :: rest =>
      dfvItems_all P hP p (i + 1) rest _
        (dfv_all P hP (.str (stripUnderscore (p ++ "_" ++ toString i))) v out h)
end

/-- Row-level corollary of `dfv_all`. -/
theorem deep_flatten_row_all (P : JKey × Node → Bool)
    (hP : ∀ (p : String), p ≠ "" → ∀ (sv : SVal), P (.str p, .scalar (nullSub sv)) = true)
    (row : Row) : (deep_flatten_row row).all P = true := by
  unfold deep_flatten_row
  have : ∀ (l : List (JKey × Node)) (acc : Row), acc.all P = true →
      (l.foldl (fun flat p => deep_flatten_value p.1 p.2 flat) acc).all P = true := by
    intro l
    induction l with
    | nil => intro acc h; exact h
    | cons q rest ih =>
        intro acc h
        exact ih _ (dfv_all P hP q.1 q.2 acc h)
  exact this row [] rfl

/-- Unfolding of `fjFields` as a left fold over the map's fields. -/
theorem fjFields_eq_foldl (l : List (JKey × Node)) (kp : String) (out : Row) :
    fjFields l kp out =
      l.foldl (fun o p => fj_recurse p.2 (kp ++ "_" ++ normalize_key p.1) o) out := by
  induction l generalizing out with
  | nil => rw [fjFields]; rfl
  | cons q rest ih =>
      obtain ⟨k, v⟩ := q
      rw [fjFields, List.foldl_cons, ih]

/-! ## Claims -/

/-- C1 (counterexample): on the example document the pipeline's columns
are `unknown_sku`, `unknown_tags_0`, `unknown_tags_1`, `id` — there is
no `items_sku` column at all (row 1 does not map `items_sku` to "A"),
and row 2 has no `items_tags_1` key either (so it cannot map it to the
empty string), refuting the claimed output. -/
theorem C1_counterexample :
    (extract_data c1_env).cols =
      [.str "unknown_sku", .str "unknown_tags_0", .str "unknown_tags_1", .str "id"] ∧
    JKey.str "items_sku" ∉ (extract_data c1_env).cols ∧
    rowLookup (.str "items_sku") ((toRecords (extract_data c1_env)).getD 0 []) ≠
      some (.scalar (.s "A")) ∧
    rowLookup (.str "items_tags_1") ((toRecords (extract_data c1_env)).getD 1 []) ≠
      some (.scalar (.s "")) := by
  refine ⟨rfl, ?_, ?_, ?_⟩
  · rw [show (extract_data c1_env).cols =
        [JKey.str "unknown_sku", .str "unknown_tags_0", .str "unknown_tags_1", .str "id"] from rfl]
    decide
  · rw [show rowLookup (.str "items_sku") ((toRecords (extract_data c1_env)).getD 0 []) =
        Option.none from rfl]
    simp
  · rw [show rowLookup (.str "items_tags_1") ((toRecords (extract_data c1_env)).getD 1 []) =
        Option.none from rfl]
    simp

/-- C1 (amended): on the example document the full extraction pipeline
produces exactly two rows with columns `unknown_sku`, `unknown_tags_0`,
`unknown_tags_1`, `id`; row 1 is `"A", "x", "y", 1` and row 2 is
`"B", "z", NaN, 1` — the element keys are prefixed with the `unknown`
placeholder (the empty initial prefix normalizes to `"unknown"`), the
broadcast root field `id` keeps its own key, and the absent second tag
of row 2 is the pandas missing marker NaN, not the empty string. -/
theorem C1_amended_pipeline :
    extract_data c1_env =
      ⟨[.str "unknown_sku", .str "unknown_tags_0", .str "unknown_tags_1", .str "id"],
       [[.scalar (.s "A"), .scalar (.s "x"), .scalar (.s "y"), .scalar (.i 1)],
        [.scalar (.s "B"), .scalar (.s "z"), .scalar .nan, .scalar (.i 1)]]⟩ := rfl

/-- C2 (counterexample): `flatten_json` applied to `{"a": 1}` with the
default empty prefix yields the single key `"unknown_a"`, not `"a"` —
the child key alone is not used when the prefix is empty. -/
theorem C2_counterexample :
    flatten_json (.map [(.str "a", .scalar (.i 1))]) = [(.str "unknown_a", .scalar (.i 1))] ∧
    rowLookup (.str "a") (flatten_json (.map [(.str "a", .scalar (.i 1))])) = Option.none ∧
    rowLookup (.str "a") (flatten_json (.map [(.str "a", .scalar (.i 1))])) ≠
      some (.scalar (.i 1)) := by
  refine ⟨rfl, rfl, ?_⟩
  rw [show rowLookup (.str "a") (flatten_json (.map [(.str "a", .scalar (.i 1))])) =
      Option.none from rfl]
  simp

/-- C2 (amended): in `flatten_json` the recursion into a Map child
always uses `normalize(prefix) + "_" + normalize(key)`; an empty prefix
normalizes to `"unknown"`, so with the empty initial prefix each
top-level key's subtree is flattened under `"unknown_" + normalize(key)`
rather than under the key alone.  In the row-level variant
`deep_flatten_value`, an empty or `None` prefix discards the value
entirely instead of recursing. -/
theorem C2_amended :
    (∀ (l : List (JKey × Node)) (out : Row),
        fj_recurse (.map l) "" out =
          l.foldl (fun o p => fj_recurse p.2 ("unknown_" ++ normalize_key p.1) o) out) ∧
    (∀ (v : Node) (out : Row), deep_flatten_value (.str "") v out = out) ∧
    (∀ (v : Node) (out : Row), deep_flatten_value .none v out = out) := by
  refine ⟨?_, ?_, ?_⟩
  · intro l out
    rw [fj_recurse]
    rw [show normalize_key (.str "") = "unknown" from rfl]
    rw [fjFields_eq_foldl]
    simp only [show ∀ x : String, "unknown" ++ "_" ++ x = "unknown_" ++ x from fun x => rfl]
  · intro v out
    cases v <;> simp [deep_flatten_value]
  · intro v out
    rw [deep_flatten_value]

/-- C6 (amended): every key either flatten variant produces is a
non-empty string; but a document whose only content lies under a null
or empty-string key surfaces under `"unknown_unknown"` (the placeholder
for the empty root prefix joined with the placeholder for the bad key),
not under the bare `"unknown"` key. -/
theorem C6_amended :
    (∀ (data : Node) (pfx : String), (flatten_json data pfx).all nonEmptyStrKeyB = true) ∧
    (∀ row : Row, (deep_flatten_row row).all nonEmptyStrKeyB = true) ∧
    flatten_json (.map [(.str "", .scalar (.i 1))]) =
      [(.str "unknown_unknown", .scalar (.i 1))] ∧
    flatten_json (.map [(JKey.none, .scalar (.i 1))]) =
      [(.str "unknown_unknown", .scalar (.i 1))] := by
  refine ⟨?_, ?_, rfl, rfl⟩
  · intro data pfx
    unfold flatten_json
    refine fj_recurse_all nonEmptyStrKeyB ?_ data pfx [] rfl
    intro s sv
    have := normalize_key_ne_empty (.str s)
    simp [nonEmptyStrKeyB, this]
  · intro row
    refine deep_flatten_row_all nonEmptyStrKeyB ?_ row
    intro p hp sv
    simp [nonEmptyStrKeyB, hp]

/-- C6 (counterexample): for the document `{"": 1}` the whole-document
flattener stores the content under key `"unknown_unknown"`, and there
is no `"unknown"` key, refuting the claim that the content appears
under the `"unknown"` placeholder key. -/
theorem C6_counterexample :
    flatten_json (.map [(.str "", .scalar (.i 1))]) =
      [(.str "unknown_unknown", .scalar (.i 1))] ∧
    rowLookup (.str "unknown") (flatten_json (.map [(.str "", .scalar (.i 1))])) =
      Option.none ∧
    rowLookup (.str "unknown") (flatten_json (.map [(.str "", .scalar (.i 1))])) ≠
      some (.scalar (.i 1)) := by
  refine ⟨rfl, rfl, ?_⟩
  rw [show rowLookup (.str "unknown") (flatten_json (.map [(.str "", .scalar (.i 1))])) =
      Option.none from rfl]
  simp

/-- C7 (amended): for a scalar leaf equal to null (Python `None`) under
a non-empty prefix both flatten variants store the empty string, and no
output entry of either variant ever holds the null scalar; but the
absent-value marker (pandas NaN) is stored unchanged, not replaced by
the empty string. -/
theorem C7_amended :
    (∀ (p : String) (out : Row), p ≠ "" →
        rowLookup (.str p) (deep_flatten_value (.str p) (.scalar .null) out) =
          some (.scalar (.s ""))) ∧
    (∀ (pfx : String) (out : Row),
        rowLookup (.str (normalize_key (.str pfx))) (fj_recurse (.scalar .null) pfx out) =
          some (.scalar (.s ""))) ∧
    (∀ (data : Node) (pfx : String), (flatten_json data pfx).all nonNullValB = true) ∧
    (∀ row : Row, (deep_flatten_row row).all nonNullValB = true) ∧
    (∀ (p : String) (out : Row), p ≠ "" →
        deep_flatten_value (.str p) (.scalar .nan) out =
          dictInsert out (.str p) (.scalar .nan)) := by
  refine ⟨?_, ?_, ?_, ?_, ?_⟩
  · intro p out hp
    rw [deep_flatten_value, if_neg hp]
    rw [show nullSub .null = .s "" from rfl]
    exact rowLookup_dictInsert_self out _ _
  · intro pfx out
    rw [fj_recurse, normalize_key_idem]
    rw [show nullSub .null = .s "" from rfl]
    exact rowLookup_dictInsert_self out _ _
  · intro data pfx
    unfold flatten_json
    refine fj_recurse_all nonNullValB ?_ data pfx [] rfl
    intro s sv
    cases sv <;> simp [nonNullValB, nullSub]
  · intro row
    refine deep_flatten_row_all nonNullValB ?_ row
    intro p hp sv
    cases sv <;> simp [nonNullValB, nullSub]
  · intro p out hp
    rw [deep_flatten_value, if_neg hp]
    rfl

/-- C7 (witness): concrete instances of the amended claim at prefix
`"k"` and the empty output dictionary. -/
theorem C7_witness :
    rowLookup (.str "k") (deep_flatten_value (.str "k") (.scalar .null) []) =
      some (.scalar (.s "")) ∧
    rowLookup (.str "unknown") (fj_recurse (.scalar .null) "" []) =
      some (.scalar (.s "")) ∧
    deep_flatten_value (.str "k") (.scalar .nan) [] = dictInsert [] (.str "k") (.scalar .nan) :=
  ⟨C7_amended.1 "k" [] (by decide), C7_amended.2.1 "" [],
    C7_amended.2.2.2.2 "k" [] (by decide)⟩

/-- C7 (counterexample): a leaf holding the absent-value marker (the
pandas NaN that `df.to_dict` hands to the row re-flattener) is stored
as-is, not as the empty string, refuting the claim for null/absent
scalar leaves. -/
theorem C7_counterexample :
    deep_flatten_value (.str "k") (.scalar .nan) [] = [(.str "k", .scalar .nan)] ∧
    rowLookup (.str "k") (deep_flatten_value (.str "k") (.scalar .nan) []) ≠
      some (.scalar (.s "")) := by
  refine ⟨rfl, ?_⟩
  rw [show rowLookup (.str "k") (deep_flatten_value (.str "k") (.scalar .nan) []) =
      some (.scalar .nan) from rfl]
  simp

/-- Folding `deep_flatten_value` over a well-formed flat row starting
from an accumulator that shares no key with the row appends the row
unchanged. -/
theorem dfr_foldl_flat (row : Row) :
    ∀ acc : Row,
      row.all (fun p => nonEmptyStrKeyB p && scalarNonNullB p.2) = true →
      keysNodupB row = true →
      (∀ p ∈ row, acc.any (fun q => decide (q.1 = p.1)) = false) →
      row.foldl (fun flat p => deep_flatten_value p.1 p.2 flat) acc = acc ++ row := by
  induction row with
  | nil => intro acc _ _ _; simp
  | cons p rest ih =>
      intro acc hvals hnodup hacc
      obtain ⟨k, v⟩ := p
      rw [List.all_cons, Bool.and_eq_true, Bool.and_eq_true] at hvals
      obtain ⟨⟨hkey, hval⟩, hvrest⟩ := hvals
      obtain ⟨s, rfl, hs⟩ : ∃ s, k = JKey.str s ∧ s ≠ "" := by
        cases k with
        | str s =>
            refine ⟨s, rfl, ?_⟩
            simpa [nonEmptyStrKeyB] using hkey
        | none => simp [nonEmptyStrKeyB] at hkey
      obtain ⟨sv, rfl, hsv⟩ : ∃ sv, v = Node.scalar sv ∧ sv ≠ SVal.null := by
        cases v with
        | scalar sv =>
            cases sv with
            | null => simp [scalarNonNullB] at hval
            | s a => exact ⟨_, rfl, by simp⟩
            | i a => exact ⟨_, rfl, by simp⟩
            | b a => exact ⟨_, rfl, by simp⟩
            | nan => exact ⟨_, rfl, by simp⟩
        | map l => simp [scalarNonNullB] at hval
        | seq l => simp [scalarNonNullB] at hval
      rw [keysNodupB, Bool.and_eq_true] at hnodup
      obtain ⟨hnd1, hnd2⟩ := hnodup
      rw [List.foldl_cons]
      rw [show deep_flatten_value (.str s) (.scalar sv) acc =
          dictInsert acc (.str s) (.scalar (nullSub sv)) from by
        rw [deep_flatten_value, if_neg hs]]
      rw [show nullSub sv = sv from by simp [nullSub, hsv]]
      rw [dictInsert_of_not_mem acc _ _ (hacc _ (List.mem_cons_self _ _))]
      rw [ih (acc ++ [(JKey.str s, Node.scalar sv)]) hvrest hnd2 ?_]
      · simp
      · intro q hq
        rw [List.any_append, Bool.or_eq_false_iff]
        constructor
        · exact hacc q (List.mem_cons_of_mem _ hq)
        · simp only [Bool.not_eq_true'] at hnd1
          rw [List.any_eq_false] at hnd1
          have := hnd1 q hq
          simp only [List.any_cons, List.any_nil, Bool.or_false, decide_eq_false_iff_not]
          simp only [decide_eq_true_eq] at this
          exact fun hc => this (hc.symm)

/-- C8 (amended): the row re-flattener returns an already-flat row
unchanged provided its keys are pairwise-distinct non-empty strings and
its values are non-null scalars — keys are passed through verbatim (no
normalization) — but an entry whose value is the null scalar is
rewritten to the empty string, so a flat row containing null is not
returned unchanged. -/
theorem C8_amended :
    (∀ row : Row, flatRowOkB row = true → deep_flatten_row row = row) ∧
    (∀ s : String, s ≠ "" →
        deep_flatten_row [(.str s, .scalar .null)] = [(.str s, .scalar (.s ""))]) := by
  constructor
  · intro row h
    rw [flatRowOkB, Bool.and_eq_true] at h
    unfold deep_flatten_row
    rw [dfr_foldl_flat row [] h.1 h.2 (fun p _ => rfl)]
    simp
  · intro s hs
    unfold deep_flatten_row
    rw [List.foldl_cons, List.foldl_nil]
    rw [deep_flatten_value, if_neg hs]
    rw [show nullSub .null = .s "" from rfl]
    rfl

/-- C8 (witness): a concrete three-entry flat row (with a string, an
integer and a NaN value) is returned unchanged, and a row holding null
under key `"k"` comes back with the empty string instead. -/
theorem C8_witness :
    deep_flatten_row
        [(.str "a", .scalar (.s "v")), (.str "b", .scalar (.i 2)), (.str "c", .scalar .nan)] =
      [(.str "a", .scalar (.s "v")), (.str "b", .scalar (.i 2)), (.str "c", .scalar .nan)] ∧
    deep_flatten_row [(.str "k", .scalar .null)] = [(.str "k", .scalar (.s ""))] :=
  ⟨C8_amended.1 _ (by decide), C8_amended.2 "k" (by decide)⟩

/-- C8 (counterexample): the already-flat row `{"k": null}` is not
returned unchanged — the re-flattener substitutes the empty string for
the null value even though the key `"k"` is already normalized. -/
theorem C8_counterexample :
    deep_flatten_row [(.str "k", .scalar .null)] = [(.str "k", .scalar (.s ""))] ∧
    deep_flatten_row [(.str "k", .scalar .null)] ≠ [(.str "k", .scalar .null)] := by
  refine ⟨rfl, ?_⟩
  rw [show deep_flatten_row [(.str "k", .scalar .null)] =
      [(.str "k", .scalar (.s ""))] from rfl]
  simp

/-! ### Lemmas about the rectangularizer -/

theorem mapWithIndex_length (f : Nat → Node → Node) :
    ∀ (i : Nat) (l : List Node), (mapWithIndex f i l).length = l.length := by
  intro i l
  induction l generalizing i with
  | nil => rfl
  | cons x xs ih => simp [mapWithIndex, ih]

theorem mapWithIndex_getElem? (f : Nat → Node → Node) :
    ∀ (l : List Node) (i j : Nat), (mapWithIndex f i l)[j]? = l[j]?.map (f (i + j)) := by
  intro l
  induction l with
  | nil => intro i j; simp [mapWithIndex]
  | cons x xs ih =>
      intro i j
      cases j with
      | zero => simp [mapWithIndex]
      | succ j =>
          rw [mapWithIndex]
          simp only [List.getElem?_cons_succ]
          rw [ih (i + 1) j, show i + (j + 1) = i + 1 + j from by omega]

theorem getD_mapWithIndex_lt (f : Nat → Node → Node) (l : List Node) (j : Nat) (d : Node)
    (hj : j < l.length) :
    (mapWithIndex f 0 l).getD j d = f j (l.getD j d) := by
  rw [List.getD_eq_getElem?_getD, List.getD_eq_getElem?_getD, mapWithIndex_getElem?]
  rw [List.getElem?_eq_getElem hj]
  simp

theorem getD_mapWithIndex_ge (f : Nat → Node → Node) (l : List Node) (j : Nat) (d : Node)
    (hj : l.length ≤ j) :
    (mapWithIndex f 0 l).getD j d = d := by
  rw [List.getD_eq_getElem?_getD, mapWithIndex_getElem?]
  rw [List.getElem?_eq_none hj]
  simp

theorem le_foldl_max (l : List Nat) : ∀ a : Nat, a ≤ l.foldl Nat.max a := by
  induction l with
  | nil => intro a; exact Nat.le_refl a
  | cons x xs ih =>
      intro a
      exact Nat.le_trans (Nat.le_max_left a x) (ih (Nat.max a x))

theorem mem_le_foldl_max (l : List Nat) (x : Nat) (hx : x ∈ l) :
    ∀ a : Nat, x ≤ l.foldl Nat.max a := by
  induction l with
  | nil => cases hx
  | cons y ys ih =>
      intro a
      rcases List.mem_cons.1 hx with h | h
      · subst h
        exact Nat.le_trans (Nat.le_max_right a x) (le_foldl_max ys (Nat.max a x))
      · exact ih h (Nat.max a y)

theorem cellLen_le_pyColMaxLen (cells : List Node) (x : Node) (hx : x ∈ cells) :
    cellLen x ≤ pyColMaxLen cells :=
  mem_le_foldl_max _ _ (List.mem_map_of_mem cellLen hx) 0

/-- Cell-level description of `normalize_list_columns` on column `j`. -/
theorem colCells_normalize (df : DataFrame) (j : Nat) :
    colCells (normalize_list_columns df) j =
      df.rows.map (fun r =>
        if j < r.length then
          (if (colCells df j).any Node.isSeq then
            normCell (pyColMaxLen (colCells df j)) (r.getD j (.scalar .nan))
          else r.getD j (.scalar .nan))
        else .scalar .nan) := by
  conv_lhs => rw [colCells, normalize_list_columns]
  rw [List.map_map]
  apply List.map_congr_left
  intro r _
  simp only [Function.comp_apply]
  by_cases hj : j < r.length
  · rw [getD_mapWithIndex_lt _ _ _ _ hj, if_pos hj]
  · rw [getD_mapWithIndex_ge _ _ _ _ (Nat.le_of_not_lt hj), if_neg hj]

/-- C9: rectangularization leaves every column without a Sequence cell
completely unchanged, and it never adds or removes rows or columns (it
also preserves every row's length). -/
theorem C9_frame :
    (∀ (df : DataFrame) (j : Nat), (colCells df j).any Node.isSeq = false →
        colCells (normalize_list_columns df) j = colCells df j) ∧
    (∀ df : DataFrame, (normalize_list_columns df).cols = df.cols) ∧
    (∀ df : DataFrame, (normalize_list_columns df).rows.length = df.rows.length) ∧
    (∀ df : DataFrame, (normalize_list_columns df).rows.map List.length =
        df.rows.map List.length) := by
  refine ⟨?_, fun _ => rfl, ?_, ?_⟩
  · intro df j h
    rw [colCells_normalize]
    conv_rhs => rw [colCells]
    apply List.map_congr_left
    intro r _
    by_cases hj : j < r.length
    · rw [if_pos hj, h]
      simp
    · rw [if_neg hj, List.getD_eq_default _ _ (Nat.le_of_not_lt hj)]
  · intro df
    simp [normalize_list_columns]
  · intro df
    unfold normalize_list_columns
    rw [List.map_map]
    apply List.map_congr_left
    intro r _
    simp [mapWithIndex_length]

/-- C9 (witness): on the concrete two-column frame `c3_wdf`, column 1
contains no list cell and is untouched by rectangularization, which
also keeps the column list and the row count. -/
theorem C9_witness :
    colCells (normalize_list_columns c3_wdf) 1 = colCells c3_wdf 1 ∧
    (normalize_list_columns c3_wdf).cols = c3_wdf.cols ∧
    (normalize_list_columns c3_wdf).rows.length = c3_wdf.rows.length :=
  ⟨C9_frame.1 c3_wdf 1 (by decide), C9_frame.2.1 c3_wdf, C9_frame.2.2.1 c3_wdf⟩

/-- C3 (amended): in a column that contains at least one Sequence cell,
after rectangularization every cell of that column is a Sequence of
exactly length `pyColMaxLen`, the maximum over all cells of the column
counting each non-Sequence cell as length 1 (so a non-Sequence cell can
raise the target length when every Sequence cell is shorter). -/
theorem C3_amended (df : DataFrame) (j : Nat)
    (hal : dfAlignedB df = true) (hj : j < df.cols.length)
    (hseq : (colCells df j).any Node.isSeq = true) :
    ∀ cell ∈ colCells (normalize_list_columns df) j,
      ∃ l, cell = Node.seq l ∧ l.length = pyColMaxLen (colCells df j) := by
  rw [colCells_normalize]
  intro cell hcell
  obtain ⟨r, hr, rfl⟩ := List.mem_map.1 hcell
  have hrl : r.length = df.cols.length := by
    rw [dfAlignedB, List.all_eq_true] at hal
    simpa using hal r hr
  have hjr : j < r.length := hrl ▸ hj
  rw [if_pos hjr, if_pos hseq]
  have hmem : r.getD j (.scalar .nan) ∈ colCells df j :=
    List.mem_map_of_mem (fun r => r.getD j (.scalar .nan)) hr
  have hle := cellLen_le_pyColMaxLen (colCells df j) _ hmem
  cases hx : r.getD j (.scalar .nan) with
  | seq l =>
      refine ⟨l ++ List.replicate (pyColMaxLen (colCells df j) - l.length) (.scalar .null),
        by rw [normCell], ?_⟩
      rw [hx] at hle
      simp only [cellLen] at hle
      simp only [List.length_append, List.length_replicate]
      omega
  | map fields =>
      refine ⟨[Node.map fields] ++ List.replicate (pyColMaxLen (colCells df j) - 1) (.scalar .null),
        by rw [normCell]; intro items h; exact Node.noConfusion h, ?_⟩
      rw [hx] at hle
      simp only [cellLen] at hle
      simp only [List.length_append, List.length_replicate, List.length_singleton]
      omega
  | scalar sv =>
      refine ⟨[Node.scalar sv] ++ List.replicate (pyColMaxLen (colCells df j) - 1) (.scalar .null),
        by rw [normCell]; intro items h; exact Node.noConfusion h, ?_⟩
      rw [hx] at hle
      simp only [cellLen] at hle
      simp only [List.length_append, List.length_replicate, List.length_singleton]
      omega

/-- C3 (witness): in `c3_wdf` column 0 (which holds the list
`["p","q"]` and the scalar `"a"`), the rectangularized cell coming from
the scalar row is a Sequence of the column's target length 2. -/
theorem C3_witness :
    ∃ l, Node.seq [Node.scalar (.s "a"), Node.scalar .null] = Node.seq l ∧
      l.length = pyColMaxLen (colCells c3_wdf 0) :=
  C3_amended c3_wdf 0 (by decide) (by decide) (by decide)
    (Node.seq [Node.scalar (.s "a"), Node.scalar .null])
    (by rw [show colCells (normalize_list_columns c3_wdf) 0 =
        [Node.seq [Node.scalar (.s "p"), Node.scalar (.s "q")],
         Node.seq [Node.scalar (.s "a"), Node.scalar .null]] from rfl]; simp)

/-- C3 (counterexample): in the column holding `[]` and `"a"`, the
maximum length among Sequence cells alone is 0, yet the code's target
length is 1 (the non-Sequence cell raised it), and after
rectangularization both cells have length 1 — so the cells are not all
of the Sequence-only maximum length, refuting the claim. -/
theorem C3_counterexample :
    specSeqOnlyMaxLen (colCells c3_df 0) = 0 ∧
    pyColMaxLen (colCells c3_df 0) = 1 ∧
    (colCells c3_df 0).any Node.isSeq = true ∧
    colCells (normalize_list_columns c3_df) 0 =
      [Node.seq [Node.scalar .null], Node.seq [Node.scalar (.s "a")]] ∧
    ¬ (∀ cell ∈ colCells (normalize_list_columns c3_df) 0,
        ∃ l, cell = Node.seq l ∧ l.length = specSeqOnlyMaxLen (colCells c3_df 0)) := by
  refine ⟨rfl, rfl, rfl, rfl, ?_⟩
  intro hforall
  obtain ⟨l, hl, hlen⟩ := hforall (Node.seq [Node.scalar .null])
    (by rw [show colCells (normalize_list_columns c3_df) 0 =
        [Node.seq [Node.scalar .null], Node.seq [Node.scalar (.s "a")]] from rfl]; simp)
  rw [show specSeqOnlyMaxLen (colCells c3_df 0) = 0 from rfl] at hlen
  cases hl
  simp at hlen

/-! ### Lemmas about the shape resolver -/

theorem pyMaxCand_cons (c q : JKey × Node) (t : List (JKey × Node)) :
    pyMaxCand c (q :: t) = pyMaxCand (if candLen q > candLen c then q else c) t := rfl

theorem pyMaxCand_le :
    ∀ (rest : List (JKey × Node)) (c : JKey × Node),
      ∀ p ∈ c :: rest, candLen p ≤ candLen (pyMaxCand c rest) := by
  intro rest
  induction rest with
  | nil =>
      intro c p hp
      rw [List.mem_singleton] at hp
      subst hp
      exact Nat.le_refl _
  | cons q t ih =>
      intro c p hp
      rw [pyMaxCand_cons]
      rcases List.mem_cons.1 hp with h | h
      · subst h
        refine Nat.le_trans ?_ (ih _ _ (List.mem_cons_self _ _))
        split
        next hgt => omega
        next hgt => exact Nat.le_refl _
      rcases List.mem_cons.1 h with h2 | h2
      · subst h2
        refine Nat.le_trans ?_ (ih _ _ (List.mem_cons_self _ _))
        split
        next hgt => exact Nat.le_refl _
        next hgt => omega
      · exact ih _ p (List.mem_cons_of_mem _ h2)

theorem pyMaxCand_mem :
    ∀ (rest : List (JKey × Node)) (c : JKey × Node), pyMaxCand c rest ∈ c :: rest := by
  intro rest
  induction rest with
  | nil => intro c; exact List.mem_singleton.2 rfl
  | cons q t ih =>
      intro c
      rw [pyMaxCand_cons]
      rcases List.mem_cons.1 (ih (if candLen q > candLen c then q else c)) with h | h
      · rw [h]
        split
        · exact List.mem_cons_of_mem _ (List.mem_cons_self _ _)
        · exact List.mem_cons_self _ _
      · exact List.mem_cons_of_mem _ (List.mem_cons_of_mem _ h)

theorem find?_cons_true {α : Type} (p : α → Bool) (a : α) (l : List α) (h : p a = true) :
    (a :: l).find? p = some a := by
  simp [List.find?, h]

theorem find?_cons_false {α : Type} (p : α → Bool) (a : α) (l : List α) (h : p a = false) :
    (a :: l).find? p = l.find? p := by
  simp [List.find?, h]

theorem pyMaxCand_first :
    ∀ (rest : List (JKey × Node)) (c : JKey × Node),
      (c :: rest).find? (fun p => candLen p == candLen (pyMaxCand c rest)) =
        some (pyMaxCand c rest) := by
  intro rest
  induction rest with
  | nil =>
      intro c
      rw [show pyMaxCand c [] = c from rfl]
      simp [List.find?]
  | cons q t ih =>
      intro c
      rw [pyMaxCand_cons]
      by_cases hqc : candLen q > candLen c
      · rw [if_pos hqc]
        have hqle := pyMaxCand_le t q q (List.mem_cons_self _ _)
        rw [find?_cons_false _ _ _ (by simp only [beq_eq_false_iff_ne]; omega)]
        exact ih q
      · rw [if_neg hqc]
        have hcle := pyMaxCand_le t c c (List.mem_cons_self _ _)
        by_cases hc : candLen c = candLen (pyMaxCand c t)
        · rw [find?_cons_true _ _ _ (by simp [beq_iff_eq, hc])]
          have h2 := ih c
          rw [find?_cons_true _ _ _ (by simp [beq_iff_eq, hc])] at h2
          exact h2
        · rw [find?_cons_false _ _ _ (by simp only [beq_eq_false_iff_ne]; exact hc)]
          rw [find?_cons_false _ _ _ (by simp only [beq_eq_false_iff_ne]; omega)]
          have h2 := ih c
          rw [find?_cons_false _ _ _ (by simp only [beq_eq_false_iff_ne]; exact hc)] at h2
          exact h2

theorem broadcast_foldl_skip (k : JKey) :
    ∀ (l : List (JKey × Node)) (flat : Row), (∀ p ∈ l, p.1 ≠ k) →
      rowLookup k
          (l.foldl (fun flat p => if p.2.isSeq then flat else dictInsert flat p.1 p.2) flat) =
        rowLookup k flat := by
  intro l
  induction l with
  | nil => intro flat _; rfl
  | cons q t ih =>
      intro flat h
      rw [List.foldl_cons]
      rw [ih _ (fun p hp => h p (List.mem_cons_of_mem _ hp))]
      by_cases hq : q.2.isSeq
      · rw [if_pos hq]
      · rw [if_neg hq]
        exact rowLookup_dictInsert_ne flat q.1 k q.2
          (fun hc => (h q (List.mem_cons_self _ _)) hc.symm)

theorem broadcast_lookup (k : JKey) (v : Node) (hv : v.isSeq = false) :
    ∀ (fields : List (JKey × Node)) (flat : Row),
      (fields.map Prod.fst).Nodup → (k, v) ∈ fields →
      rowLookup k
          (fields.foldl (fun flat p => if p.2.isSeq then flat else dictInsert flat p.1 p.2) flat) =
        some v := by
  intro fields
  induction fields with
  | nil => intro flat _ hmem; cases hmem
  | cons q t ih =>
      intro flat hnd hmem
      rw [List.map_cons, List.nodup_cons] at hnd
      obtain ⟨hq_nin, hnd_t⟩ := hnd
      rw [List.foldl_cons]
      rcases List.mem_cons.1 hmem with h | h
      · rw [← h] at hq_nin ⊢
        rw [broadcast_foldl_skip k t _ ?_]
        · rw [show ((k, v) : JKey × Node).2.isSeq = false from hv]
          rw [if_neg (by simp)]
          exact rowLookup_dictInsert_self flat k v
        · intro p hp hc
          apply hq_nin
          have hmap : p.1 ∈ t.map Prod.fst := List.mem_map_of_mem Prod.fst hp
          rwa [hc] at hmap
      · exact ih _ hnd_t h

theorem dfOfRecords_rows_length (rs : List Row) : (dfOfRecords rs).rows.length = rs.length := by
  simp [dfOfRecords]

/-- C4: when the root Map has sequence-valued fields, the resolver picks
the first field of greatest sequence length (strict-greater comparison,
first encountered wins ties), emits exactly one row per element of that
sequence, and broadcasts every non-sequence root field onto each row. -/
theorem C4_shape_resolver (fields : List (JKey × Node)) (c : JKey × Node)
    (rest : List (JKey × Node))
    (hfilter : fields.filter (fun p => p.2.isSeq) = c :: rest) :
    (∀ p ∈ c :: rest, candLen p ≤ candLen (pyMaxCand c rest)) ∧
    ((c :: rest).find? (fun p => candLen p == candLen (pyMaxCand c rest)) =
      some (pyMaxCand c rest)) ∧
    ((extract_json_safely (.map fields)).rows.length = candLen (pyMaxCand c rest)) ∧
    (∀ (item : Node) (k : JKey) (v : Node), (fields.map Prod.fst).Nodup →
        (k, v) ∈ fields → v.isSeq = false →
        rowLookup k (broadcastRow fields item) = some v) := by
  refine ⟨pyMaxCand_le rest c, pyMaxCand_first rest c, ?_, ?_⟩
  · have hjs : extract_json_safely (.map fields) =
        dfOfRecords ((match (pyMaxCand c rest).2 with | .seq l => l | _ => ([] : List Node)).map
          (fun item => broadcastRow fields item)) := by
      rw [extract_json_safely, hfilter]
    rw [hjs, dfOfRecords_rows_length, List.length_map]
    have hmem : pyMaxCand c rest ∈ fields.filter (fun p => p.2.isSeq) := by
      rw [hfilter]
      exact pyMaxCand_mem rest c
    have hseq : (pyMaxCand c rest).2.isSeq = true := (List.mem_filter.1 hmem).2
    cases h2 : (pyMaxCand c rest).2 with
    | seq l => simp [candLen, h2]
    | map l => rw [h2] at hseq; cases hseq
    | scalar sv => rw [h2] at hseq; cases hseq
  · intro item k v hnd hmem hv
    unfold broadcastRow
    exact broadcast_lookup k v hv fields (flatten_json item) hnd hmem

/-- C4 (witness): for the root with sequence fields of lengths 3 and 5
and scalar field `id = 9`, the resolver emits exactly 5 rows and each
row maps `id` to 9. -/
theorem C4_witness :
    (extract_json_safely (.map c4_fields)).rows.length = 5 ∧
    rowLookup (.str "id") (broadcastRow c4_fields (.scalar (.i 0))) = some (.scalar (.i 9)) := by
  have h := C4_shape_resolver c4_fields
    (.str "a", .seq [.scalar (.i 1), .scalar (.i 2), .scalar (.i 3)])
    [(.str "b", .seq [.scalar (.i 1), .scalar (.i 2), .scalar (.i 3),
                      .scalar (.i 4), .scalar (.i 5)])]
    rfl
  constructor
  · exact h.2.2.1.trans rfl
  · exact h.2.2.2 (.scalar (.i 0)) (.str "id") (.scalar (.i 9)) (by decide)
      (by simp [c4_fields]) rfl

/-- C10: the non-sequence root fields are written into each produced row
after the element is flattened: with pairwise-distinct root keys, the
final row always maps such a field's original, unmodified key to its
raw, unflattened value — also when the flattened element wrote that key
first. -/
theorem C10_root_overwrite (fields : List (JKey × Node)) (item : Node) (k : JKey) (v : Node)
    (hnd : (fields.map Prod.fst).Nodup) (hmem : (k, v) ∈ fields) (hv : v.isSeq = false) :
    rowLookup k (broadcastRow fields item) = some v := by
  unfold broadcastRow
  exact broadcast_lookup k v hv fields (flatten_json item) hnd hmem

/-- C10 (witness): the element `{"x": 1}` flattens to key `unknown_x`,
yet the produced row maps `unknown_x` to the root field's value 7 — the
root-level write lands after flattening and overwrites the
element-derived cell. -/
theorem C10_witness :
    flatten_json (.map [(.str "x", .scalar (.i 1))]) = [(.str "unknown_x", .scalar (.i 1))] ∧
    rowLookup (.str "unknown_x")
        (broadcastRow c10_fields (.map [(.str "x", .scalar (.i 1))])) =
      some (.scalar (.i 7)) :=
  ⟨rfl,
    C10_root_overwrite c10_fields (.map [(.str "x", .scalar (.i 1))])
      (.str "unknown_x") (.scalar (.i 7)) (by decide) (by simp [c10_fields]) rfl⟩

/-- C5: for every environment, each failure mode — missing file, no
registered reader for a non-JSON extension, JSON parse failure, reader
failure, or any other fault raised inside the `try` block — makes
`extract_data` return the empty table with zero rows and zero columns;
and whenever the body signals any error at all, the same empty table is
returned (the function is total, so no fault escapes the boundary). -/
theorem C5_error_boundary :
    ∀ env : Env,
      (env.pathExists = false → extract_data env = DataFrame.mk [] []) ∧
      (env.ext ≠ "json" → env.readers env.ext = Option.none →
          extract_data env = DataFrame.mk [] []) ∧
      (∀ e, env.ext = "json" → env.jsonDoc = .error e →
          extract_data env = DataFrame.mk [] []) ∧
      (∀ e, env.ext ≠ "json" → env.readers env.ext = some (.error e) →
          extract_data env = DataFrame.mk [] []) ∧
      (∀ e, env.unexpected = some e → extract_data env = DataFrame.mk [] []) ∧
      (∀ e, extract_body env = .error e → extract_data env = DataFrame.mk [] []) := by
  intro env
  refine ⟨?_, ?_, ?_, ?_, ?_, ?_⟩
  · intro h
    unfold extract_data extract_body
    simp [h]
  · intro h1 h2
    unfold extract_data extract_body readStep
    by_cases hp : env.pathExists <;> simp [hp, h1, h2]
  · intro e h1 h2
    unfold extract_data extract_body readStep
    by_cases hp : env.pathExists <;> simp [hp, h1, h2]
  · intro e h1 h2
    unfold extract_data extract_body readStep
    by_cases hp : env.pathExists <;> simp [hp, h1, h2]
  · intro e h
    unfold extract_data extract_body
    by_cases hp : env.pathExists
    · cases hrs : readStep env <;> simp [hp, hrs, h]
    · simp [hp]
  · intro e h
    unfold extract_data
    rw [h]

/-- C5 (witness): calling the pipeline on a non-existent path yields the
empty table. -/
theorem C5_witness : extract_data c5_env = DataFrame.mk [] [] :=
  (C5_error_boundary c5_env).1 rfl

end Etl
